import Mathlib

/-!
Verification of the review-wait computation engine of the
pending-review-notifier repository, shallowly embedded from
`src_graphql/github_domain.py` and `src_graphql/github_services.py`.

Modelling conventions:
* Timestamps are integer microseconds (Python `datetime` resolution).
  `datetime.now(timezone.utc)` is passed explicitly as a `now` parameter.
* `dateutil.parser.parse` on the ISO-8601 `created_at` string is modelled by
  the timeline event carrying its already-parsed instant.
* The process-global `_TOKEN` is modelled as an explicit `Option String`
  parameter threaded to the service functions; `none` means the service was
  never initialized.
* HTTP is modelled by lists of page responses (one entry per issued request,
  in request order); a response is either a success carrying a JSON body or a
  non-success status.  Raising an exception is modelled by `Except`.  Each
  service function also returns the trace of success flags of the responses
  it actually consumed, one per request it issued.
-/

namespace GithubNotifier

/-- Microseconds in one hour. -/
def usPerHour : Int := 3600000000

/-- Microseconds in one day. -/
def usPerDay : Int := 86400000000

/-- The sentinel `DEFAULT_TIMESTAMP = datetime(MINYEAR, 1, 1, tzinfo=timezone.utc)`:
0001-01-01T00:00:00Z as microseconds since the Unix epoch. -/
def DEFAULT_TIMESTAMP : Int := -62135596800000000

/-- The `Assignee` class from `github_domain.py`: a reviewer identity together with a
mutable assignment timestamp. -/
structure Assignee where
  name : String
  timestamp : Int
  deriving Repr, DecidableEq

/-- Constructor `Assignee.__init__` with the default timestamp argument. -/
def Assignee.mkDefault (name : String) : Assignee :=
  { name := name, timestamp := DEFAULT_TIMESTAMP }

/-- Method `Assignee.set_timestamp(self, timestamp)`: `self.timestamp = timestamp`
(a plain overwrite; the source method takes no maximum itself). -/
def Assignee.set_timestamp (a : Assignee) (timestamp : Int) : Assignee :=
  { a with timestamp := timestamp }

/-- Method `Assignee.get_readable_waiting_time`.  `delta = now - self.timestamp`;
`days = delta.days` and `hours = delta.seconds // 3600` use Python
`timedelta` normalization: `days` is the floor of the total duration in
days (possibly negative) and `seconds` lies in `[0, 86400)`. -/
def Assignee.get_readable_waiting_time (a : Assignee) (now : Int) : String :=
  let delta : Int := now - a.timestamp
  let totalSeconds : Int := delta.fdiv 1000000
  let days : Int := totalSeconds.fdiv 86400
  let seconds : Int := totalSeconds.fmod 86400
  let hours : Int := seconds.fdiv 3600
  let waiting_time : List String :=
    (if days ≠ 0 then
      [toString days ++ " day" ++ (if days > 1 then "s" else "")] else []) ++
    (if hours ≠ 0 then
      [toString hours ++ " hour" ++ (if hours > 1 then "s" else "")] else [])
  String.intercalate ", " waiting_time

/-- The `PullRequest` class from `github_domain.py`. -/
structure PullRequest where
  url : String
  number : Nat
  author : String
  title : String
  assignees : List Assignee
  deriving Repr, DecidableEq

/-- Method `PullRequest.is_reviewer_assigned`:
`not (len(self.assignees) == 1 and self.assignees[0].name == self.author)`. -/
def PullRequest.is_reviewer_assigned (pr : PullRequest) : Bool :=
  match pr.assignees with
  | [a] => ! (a.name == pr.author)
  | _ => true

/-- Method `PullRequest.get_assignee(self, user)`:
`next(filter(lambda x: x.name == user, self.assignees), None)` — the first
assignee whose name equals `user`, or `None`. -/
def PullRequest.get_assignee (pr : PullRequest) (user : String) : Option Assignee :=
  pr.assignees.find? (fun x => x.name == user)

/-- Raw assignee entry of a GitHub pull-request record (`a['login']`). -/
structure AssigneeRecord where
  login : String
  deriving Repr, DecidableEq

/-- Raw GitHub pull-request record, restricted to the fields
`from_github_response` reads. -/
structure PullRequestRecord where
  html_url : String
  number : Nat
  title : String
  user_login : String
  assignees : List AssigneeRecord
  deriving Repr, DecidableEq

/-- Classmethod `PullRequest.from_github_response(cls, pr_dict)`. -/
def PullRequest.from_github_response (pr_dict : PullRequestRecord) : PullRequest :=
  { url := pr_dict.html_url
    number := pr_dict.number
    title := pr_dict.title
    author := pr_dict.user_login
    assignees := pr_dict.assignees.map (fun a => Assignee.mkDefault a.login) }

/-- A timeline event, restricted to the fields `__process_activity` reads:
`event['event']`, `event['assignee']['login']`, and `event['created_at']`
(the latter already parsed into an instant, see the module comment). -/
structure TimelineEvent where
  event : String
  assignee_login : String
  created_at : Int
  deriving Repr, DecidableEq

/-- The state change performed by
`assignee = pull_request.get_assignee(login); if assignee:
assignee.set_timestamp(max([assignee.timestamp, event_timestamp]))`:
the first assignee named `user` (the one `get_assignee` returns) has its
timestamp advanced to the maximum; if none matches, nothing changes. -/
def update_first_assignee (user : String) (event_timestamp : Int) :
    List Assignee → List Assignee
  | [] => []
  | a :: rest =>
    if a.name == user then
      a.set_timestamp (max a.timestamp event_timestamp) :: rest
    else
      a :: update_first_assignee user event_timestamp rest

/-- Function `__process_activity(pull_request, event)` from `github_services.py`. -/
def process_activity (pull_request : PullRequest) (event : TimelineEvent) :
    PullRequest :=
  if event.event == "assigned" then
    { pull_request with
        assignees :=
          update_first_assignee event.assignee_login event.created_at
            pull_request.assignees }
  else
    pull_request

/-- Folding `__process_activity` over a list of timeline events, as the inner
loop of `update_assignee_timestamp` does for each fetched page. -/
def process_events (pull_request : PullRequest) (events : List TimelineEvent) :
    PullRequest :=
  events.foldl process_activity pull_request

/-- An HTTP response: either a 2xx response carrying a JSON body, or a
non-success status on which `raise_for_status` raises. -/
inductive Fetch (α : Type) where
  | ok (body : α)
  | httpError (status : Nat)
  deriving Repr, DecidableEq

/-- Errors raised by the service layer. -/
inductive ServiceError where
  | configError
  | httpError (status : Nat)
  deriving Repr, DecidableEq

/-- Decidable equality for raised-or-returned results. -/
instance exceptDecidableEq {ε α : Type} [DecidableEq ε] [DecidableEq α] :
    DecidableEq (Except ε α)
  | .error e1, .error e2 =>
    if h : e1 = e2 then .isTrue (by rw [h]) else
      .isFalse (fun hh => h (Except.error.injEq e1 e2 ▸ hh))
  | .error _, .ok _ => .isFalse (fun hh => Except.noConfusion hh)
  | .ok _, .error _ => .isFalse (fun hh => Except.noConfusion hh)
  | .ok a1, .ok a2 =>
    if h : a1 = a2 then .isTrue (by rw [h]) else
      .isFalse (fun hh => h (Except.ok.injEq a1 a2 ▸ hh))

/-- The paginated timeline loop of `update_assignee_timestamp` for a single
pull request: pages are consumed in order; a non-success response raises; an
empty page breaks; otherwise every event of the page is processed.  A page
beyond the provided list is an empty page (the server has nothing more).
Returns the updated pull request and the success flags of consumed
responses. -/
def update_assignee_timestamp_pages (pull_request : PullRequest) :
    List (Fetch (List TimelineEvent)) →
      Except ServiceError PullRequest × List Bool
  | [] => (.ok pull_request, [])
  | .httpError s :: _ => (.error (.httpError s), [false])
  | .ok [] :: _ => (.ok pull_request, [true])
  | .ok events :: rest =>
    let r := update_assignee_timestamp_pages (process_events pull_request events) rest
    (r.1, true :: r.2)

/-- Function `update_assignee_timestamp(org_name, repository, pr_list)`: for each pull
request in order, page through its issue timeline.  The source function has
NO `check_token` decorator: the `tok` parameter is read (it is interpolated
into the request headers) but never checked.  The source mutates the pull
requests in place; here the updated list is returned. -/
def update_assignee_timestamp (tok : Option String)
    (timeline : Nat → List (Fetch (List TimelineEvent))) :
    List PullRequest → Except ServiceError (List PullRequest) × List Bool
  | [] => (.ok [], [])
  | pull_request :: rest =>
    let r := update_assignee_timestamp_pages pull_request
      (timeline pull_request.number)
    match r.1 with
    | .error e => (.error e, r.2)
    | .ok pr' =>
      let rr := update_assignee_timestamp tok timeline rest
      match rr.1 with
      | .error e => (.error e, r.2 ++ rr.2)
      | .ok rest' => (.ok (pr' :: rest'), r.2 ++ rr.2)

/-- The reviewer → overdue-PRs mapping: `defaultdict(list)` preserving key
insertion order, values appended in discovery order. -/
def ReviewerMap : Type := List (String × List PullRequest)

instance : DecidableEq ReviewerMap := by
  unfold ReviewerMap
  infer_instance

/-- Operation `reviewer_to_assigned_prs[reviewer.name].append(pull_request)` on a
`defaultdict(list)`. -/
def dict_append (m : ReviewerMap) (k : String) (v : PullRequest) : ReviewerMap :=
  match m with
  | [] => [(k, [v])]
  | (k', vs) :: rest =>
    if k' == k then (k', vs ++ [v]) :: rest else (k', vs) :: dict_append rest k v

/-- Lookup in the mapping (`defaultdict` semantics: missing key reads as the
empty list). -/
def dict_get (m : ReviewerMap) (k : String) : List PullRequest :=
  match m with
  | [] => []
  | (k', vs) :: rest => if k' == k then vs else dict_get rest k

/-- The body of the per-reviewer loop in `get_prs_assigned_to_reviewers`
(lines 78-83): `pending_review_time = now - reviewer.timestamp`; append when
`reviewer.name != pull_request.author` and
`pending_review_time >= timedelta(hours=wait_hours)`. -/
def consider_reviewer (now : Int) (wait_hours : Int) (pull_request : PullRequest)
    (m : ReviewerMap) (reviewer : Assignee) : ReviewerMap :=
  let pending_review_time : Int := now - reviewer.timestamp
  if reviewer.name ≠ pull_request.author ∧
      pending_review_time ≥ wait_hours * usPerHour then
    dict_append m reviewer.name pull_request
  else
    m

/-- The filter-and-group step of `get_prs_assigned_to_reviewers`
(lines 75-83): skip a pull request without a reviewer assigned, otherwise run
the per-reviewer loop over its assignees. -/
def filter_group (now : Int) (wait_hours : Int) (m : ReviewerMap)
    (pull_request : PullRequest) : ReviewerMap :=
  if !pull_request.is_reviewer_assigned then
    m
  else
    pull_request.assignees.foldl (consider_reviewer now wait_hours pull_request) m

/-- The paginated PR-listing loop of `get_prs_assigned_to_reviewers`: pages
are consumed in order; a non-success response raises; an empty page breaks;
otherwise the page is parsed, its timelines reconciled, and the page's pull
requests filtered and grouped into the accumulating mapping. -/
def get_prs_pages (tok : Option String)
    (timeline : Nat → List (Fetch (List TimelineEvent)))
    (now : Int) (wait_hours : Int) (m : ReviewerMap) :
    List (Fetch (List PullRequestRecord)) →
      Except ServiceError ReviewerMap × List Bool
  | [] => (.ok m, [])
  | .httpError s :: _ => (.error (.httpError s), [false])
  | .ok [] :: _ => (.ok m, [true])
  | .ok pr_subset :: rest =>
    let pull_requests := pr_subset.map PullRequest.from_github_response
    let upd := update_assignee_timestamp tok timeline pull_requests
    match upd.1 with
    | .error e => (.error e, true :: upd.2)
    | .ok prs' =>
      let m' := prs'.foldl (filter_group now wait_hours) m
      let r := get_prs_pages tok timeline now wait_hours m' rest
      (r.1, true :: upd.2 ++ r.2)

/-- Function `get_prs_assigned_to_reviewers(org_name, repository, wait_hours)`,
guarded by the `check_token` decorator: with an uninitialized token it raises
before issuing any request. -/
def get_prs_assigned_to_reviewers (tok : Option String)
    (timeline : Nat → List (Fetch (List TimelineEvent)))
    (now : Int) (wait_hours : Int)
    (pr_pages : List (Fetch (List PullRequestRecord))) :
    Except ServiceError ReviewerMap × List Bool :=
  match tok with
  | none => (.error .configError, [])
  | some _ => get_prs_pages tok timeline now wait_hours [] pr_pages

/-! ### Helper lemmas about `update_first_assignee` -/

/-- Lemma: a `set_timestamp` call keeps the name. -/
theorem set_timestamp_name (a : Assignee) (t : Int) :
    (a.set_timestamp t).name = a.name := rfl

/-- Lemma: when no assignee matches the login, `update_first_assignee` is the
identity. -/
theorem update_first_assignee_no_match (user : String) (t : Int) :
    ∀ l : List Assignee, (∀ a ∈ l, a.name ≠ user) →
      update_first_assignee user t l = l
  | [], _ => rfl
  | a :: rest, h => by
    have ha : a.name ≠ user := h a (List.mem_cons_self a rest)
    simp only [update_first_assignee, beq_iff_eq, ha, if_false]
    rw [update_first_assignee_no_match user t rest
      (fun x hx => h x (List.mem_cons_of_mem a hx))]

/-- Lemma: on a list decomposed around its first match,
`update_first_assignee` advances exactly that element. -/
theorem update_first_assignee_decomp (user : String) (t : Int) :
    ∀ (xs : List Assignee) (a : Assignee) (ys : List Assignee),
      (∀ x ∈ xs, x.name ≠ user) → a.name = user →
      update_first_assignee user t (xs ++ a :: ys) =
        xs ++ a.set_timestamp (max a.timestamp t) :: ys
  | [], a, ys, _, ha => by
    simp only [List.nil_append, update_first_assignee, beq_iff_eq, ha, if_true]
  | x :: xs, a, ys, h, ha => by
    have hx : x.name ≠ user := h x (List.mem_cons_self x xs)
    simp only [List.cons_append, update_first_assignee, beq_iff_eq, hx, if_false]
    exact congrArg (List.cons x) (update_first_assignee_decomp user t xs a ys
      (fun y hy => h y (List.mem_cons_of_mem x hy)) ha)

/-- Lemma: updates for two logins commute. -/
theorem update_first_assignee_comm (u1 u2 : String) (t1 t2 : Int) :
    ∀ l : List Assignee,
      update_first_assignee u1 t1 (update_first_assignee u2 t2 l) =
        update_first_assignee u2 t2 (update_first_assignee u1 t1 l)
  | [] => rfl
  | a :: rest => by
    by_cases h2 : a.name = u2 <;> by_cases h1 : a.name = u1
    · subst h1; subst h2
      simp [update_first_assignee, Assignee.set_timestamp, sup_right_comm]
    · subst h2
      simp [update_first_assignee, Assignee.set_timestamp, h1]
    · subst h1
      simp [update_first_assignee, Assignee.set_timestamp, h2]
    · simp only [update_first_assignee, beq_iff_eq, h1, h2, if_false]
      exact congrArg (List.cons a) (update_first_assignee_comm u1 u2 t1 t2 rest)

/-- Lemma: repeating the same update is a no-op. -/
theorem update_first_assignee_idem (u : String) (t : Int) :
    ∀ l : List Assignee,
      update_first_assignee u t (update_first_assignee u t l) =
        update_first_assignee u t l
  | [] => rfl
  | a :: rest => by
    by_cases h : a.name = u <;>
      simp only [update_first_assignee, beq_iff_eq, h, if_true, if_false,
        set_timestamp_name, Assignee.set_timestamp]
    · simp [max_assoc]
    · rw [update_first_assignee_idem u t rest]

/-- Lemma: `__process_activity` applications commute. -/
theorem process_activity_comm (pr : PullRequest) (e1 e2 : TimelineEvent) :
    process_activity (process_activity pr e1) e2 =
      process_activity (process_activity pr e2) e1 := by
  by_cases h1 : e1.event = "assigned" <;> by_cases h2 : e2.event = "assigned" <;>
    simp only [process_activity, beq_iff_eq, h1, h2, if_true, if_false]
  rw [update_first_assignee_comm]

/-- Lemma: `__process_activity` is idempotent on a single event. -/
theorem process_activity_idem (pr : PullRequest) (e : TimelineEvent) :
    process_activity (process_activity pr e) e = process_activity pr e := by
  by_cases h : e.event = "assigned" <;>
    simp only [process_activity, beq_iff_eq, h, if_true, if_false]
  rw [update_first_assignee_idem]

/-- Lemma: `process_events` is invariant under permutation of the event
list. -/
theorem process_events_perm {es es' : List TimelineEvent} (h : es.Perm es') :
    ∀ pr : PullRequest, process_events pr es = process_events pr es' := by
  induction h with
  | nil => intro pr; rfl
  | cons x _ ih =>
    intro pr
    simp only [process_events, List.foldl_cons] at *
    exact ih _
  | swap x y l =>
    intro pr
    simp only [process_events, List.foldl_cons, process_activity_comm]
  | trans _ _ ih1 ih2 =>
    intro pr
    rw [ih1, ih2]

/-- Duplication of a list: each element repeated twice in place. -/
def doubled : List TimelineEvent → List TimelineEvent
  | [] => []
  | a :: l => a :: a :: doubled l

/-- Lemma: `l ++ l` is a permutation of `doubled l`. -/
theorem doubled_perm : ∀ l : List TimelineEvent, (l ++ l).Perm (doubled l)
  | [] => List.Perm.nil
  | a :: l => by
    simp only [doubled, List.cons_append]
    refine List.Perm.cons a ?_
    exact List.Perm.trans List.perm_middle (List.Perm.cons a (doubled_perm l))

/-- Lemma: folding over a doubled list is the same as over the list. -/
theorem process_events_doubled :
    ∀ (l : List TimelineEvent) (pr : PullRequest),
      process_events pr (doubled l) = process_events pr l
  | [], _ => rfl
  | a :: l, pr => by
    simp only [doubled, process_events, List.foldl_cons]
    rw [process_activity_idem]
    exact process_events_doubled l (process_activity pr a)

/-! ### Claims C1, C3, C5, C7, C10 -/

/-- C1, counterexample: `set_timestamp` is a plain overwrite, not a
`max`: starting from timestamp `5`, calling `set_timestamp 3` stores `3`,
which is not `max 5 3`, so the timestamp can decrease. -/
theorem c1_counterexample :
    ((Assignee.mk "bob" 5).set_timestamp 3).timestamp ≠ max 5 3 := by
  decide

/-- C1, amended: `set_timestamp(new_value)` overwrites the stored timestamp
with `new_value` unconditionally, so after a finite sequence of calls the
stored timestamp equals the LAST applied value (the initial value when there
is none), and it does depend on call order and can decrease.  The
monotone-maximum behaviour arises only at the reconciler call site, which
passes `max(current, event_timestamp)` as the argument. -/
theorem c1_set_timestamp_overwrites_last (a : Assignee) (vs : List Int) :
    (vs.foldl Assignee.set_timestamp a).timestamp = vs.getLastD a.timestamp := by
  induction vs generalizing a with
  | nil => rfl
  | cons v rest ih =>
    rw [List.foldl_cons, List.getLastD_cons, ih]
    rfl

/-- C3: `is_reviewer_assigned` returns `false` exactly when the assignee
list is a singleton whose element is named after the author; in particular
it returns `true` for zero assignees, for two or more assignees, and for a
single non-author assignee. -/
theorem c3_is_reviewer_assigned_iff (pr : PullRequest) :
    pr.is_reviewer_assigned = false ↔
      ∃ a, pr.assignees = [a] ∧ a.name = pr.author := by
  cases h : pr.assignees with
  | nil => simp [PullRequest.is_reviewer_assigned, h]
  | cons a rest =>
    cases rest with
    | nil => simp [PullRequest.is_reviewer_assigned, h]
    | cons b rest' => simp [PullRequest.is_reviewer_assigned, h]

/-- C5: `__process_activity` ignores events whose kind is not `"assigned"`;
for an `"assigned"` event whose login names an assignee of the pull request
(decomposed around the first assignee carrying that login, the one
`get_assignee` finds), that assignee's timestamp is advanced to the later of
its current value and the event's parsed `created_at`, all other fields and
assignees unchanged. -/
theorem c5_process_activity_spec (pr : PullRequest) (e : TimelineEvent) :
    (e.event ≠ "assigned" → process_activity pr e = pr) ∧
    (∀ (xs : List Assignee) (a : Assignee) (ys : List Assignee),
      e.event = "assigned" →
      pr.assignees = xs ++ a :: ys →
      (∀ x ∈ xs, x.name ≠ e.assignee_login) →
      a.name = e.assignee_login →
      process_activity pr e =
        { pr with assignees :=
            xs ++ a.set_timestamp (max a.timestamp e.created_at) :: ys }) := by
  constructor
  · intro h
    simp only [process_activity, beq_iff_eq, h, if_false]
  · intro xs a ys he hpr hxs ha
    simp only [process_activity, beq_iff_eq, he, if_true, hpr]
    rw [update_first_assignee_decomp e.assignee_login e.created_at xs a ys hxs ha]

/-- C5, witness: a non-`"assigned"` event changes nothing, and an
`"assigned"` event for the sole assignee `"bob"` advances bob's timestamp to
the event instant. -/
theorem c5_witness :
    process_activity (PullRequest.mk "u" 42 "alice" "t" [Assignee.mk "bob" 0])
        (TimelineEvent.mk "commented" "bob" 7) =
      PullRequest.mk "u" 42 "alice" "t" [Assignee.mk "bob" 0] ∧
    process_activity (PullRequest.mk "u" 42 "alice" "t" [Assignee.mk "bob" 0])
        (TimelineEvent.mk "assigned" "bob" 7) =
      PullRequest.mk "u" 42 "alice" "t" [Assignee.mk "bob" 7] :=
  ⟨(c5_process_activity_spec _ _).1 (by decide),
   (c5_process_activity_spec
      (PullRequest.mk "u" 42 "alice" "t" [Assignee.mk "bob" 0])
      (TimelineEvent.mk "assigned" "bob" 7)).2
    [] (Assignee.mk "bob" 0) [] rfl rfl (by simp) rfl⟩

/-- C7: an `"assigned"` event whose login is not among the pull request's
assignee names leaves the pull request (hence every existing assignee's
timestamp) unchanged; `process_activity` is a total function, so no error is
raised (the source parses `created_at` and then silently skips the `None`
lookup result). -/
theorem c7_unknown_assignee_ignored (pr : PullRequest) (e : TimelineEvent)
    (he : e.event = "assigned")
    (h : ∀ a ∈ pr.assignees, a.name ≠ e.assignee_login) :
    process_activity pr e = pr := by
  simp only [process_activity, beq_iff_eq, he, if_true]
  rw [update_first_assignee_no_match e.assignee_login e.created_at pr.assignees h]

/-- C7, witness: an `"assigned"` event for the absent login `"mallory"`
leaves the pull request untouched. -/
theorem c7_witness :
    (TimelineEvent.mk "assigned" "mallory" 7).event = "assigned" ∧
    process_activity (PullRequest.mk "u" 42 "alice" "t" [Assignee.mk "bob" 0])
        (TimelineEvent.mk "assigned" "mallory" 7) =
      PullRequest.mk "u" 42 "alice" "t" [Assignee.mk "bob" 0] :=
  ⟨rfl, c7_unknown_assignee_ignored _ _ rfl (by decide)⟩

/-- Lemma: `find?` on a list decomposed around its first match. -/
theorem find_name_decomp (login : String) :
    ∀ (xs : List Assignee) (a : Assignee) (ys : List Assignee),
      (∀ x ∈ xs, x.name ≠ login) → a.name = login →
      (xs ++ a :: ys).find? (fun x => x.name == login) = some a
  | [], a, ys, _, ha => by
    simp only [List.nil_append]
    exact List.find?_cons_of_pos _ (by simp [ha])
  | x :: xs, a, ys, h, ha => by
    have hx : x.name ≠ login := h x (List.mem_cons_self x xs)
    simp only [List.cons_append]
    rw [List.find?_cons_of_neg _ (by simp [hx])]
    exact find_name_decomp login xs a ys
      (fun y hy => h y (List.mem_cons_of_mem x hy)) ha

/-- C10: `get_assignee` returns `None` when no assignee carries the login,
and otherwise the FIRST assignee (in list order) carrying it; consequently an
`"assigned"` event advances only that first assignee, and any later
duplicate of the same name — including the tail `ys` verbatim — is left with
its previous (sentinel) timestamp. -/
theorem c10_get_assignee_first_match (pr : PullRequest) (login : String) (t : Int) :
    ((∀ x ∈ pr.assignees, x.name ≠ login) → pr.get_assignee login = none) ∧
    (∀ (xs : List Assignee) (a : Assignee) (ys : List Assignee),
      pr.assignees = xs ++ a :: ys →
      (∀ x ∈ xs, x.name ≠ login) →
      a.name = login →
      pr.get_assignee login = some a ∧
      process_activity pr (TimelineEvent.mk "assigned" login t) =
        { pr with assignees :=
            xs ++ a.set_timestamp (max a.timestamp t) :: ys }) := by
  constructor
  · intro h
    simp only [PullRequest.get_assignee, List.find?_eq_none, beq_iff_eq]
    intro x hx
    exact h x hx
  · intro xs a ys hpr hxs ha
    constructor
    · simp only [PullRequest.get_assignee, hpr]
      exact find_name_decomp login xs a ys hxs ha
    · simp only [process_activity, beq_iff_eq, if_true, hpr]
      rw [update_first_assignee_decomp login t xs a ys hxs ha]

/-- C10, witness: with duplicate assignees both named `"bob"`, the event
advances only the first; the later duplicate keeps its sentinel timestamp. -/
theorem c10_witness :
    (PullRequest.mk "u" 1 "alice" "t"
        [Assignee.mk "bob" DEFAULT_TIMESTAMP, Assignee.mk "bob" DEFAULT_TIMESTAMP]).get_assignee
        "bob" = some (Assignee.mk "bob" DEFAULT_TIMESTAMP) ∧
    process_activity
        (PullRequest.mk "u" 1 "alice" "t"
          [Assignee.mk "bob" DEFAULT_TIMESTAMP, Assignee.mk "bob" DEFAULT_TIMESTAMP])
        (TimelineEvent.mk "assigned" "bob" 7) =
      PullRequest.mk "u" 1 "alice" "t"
        [Assignee.mk "bob" 7, Assignee.mk "bob" DEFAULT_TIMESTAMP] := by
  have h := (c10_get_assignee_first_match
    (PullRequest.mk "u" 1 "alice" "t"
      [Assignee.mk "bob" DEFAULT_TIMESTAMP, Assignee.mk "bob" DEFAULT_TIMESTAMP])
    "bob" 7).2 [] (Assignee.mk "bob" DEFAULT_TIMESTAMP)
    [Assignee.mk "bob" DEFAULT_TIMESTAMP] rfl (by simp) rfl
  refine ⟨h.1, ?_⟩
  rw [h.2]
  decide

/-! ### Claims C6 and C2 -/

/-- C6: timeline reconciliation is idempotent — applying an event list twice
in succession equals applying it once — and the final timestamps are
independent of the order in which the events are applied. -/
theorem c6_reconciliation_idempotent_order_independent (pr : PullRequest)
    (es es' : List TimelineEvent) (hperm : es.Perm es') :
    process_events (process_events pr es) es = process_events pr es ∧
    process_events pr es = process_events pr es' := by
  constructor
  · have h1 : process_events (process_events pr es) es =
        process_events pr (es ++ es) := by
      simp [process_events, List.foldl_append]
    rw [h1, process_events_perm (doubled_perm es), process_events_doubled]
  · exact process_events_perm hperm pr

/-- C6, witness: replaying two assignment events twice, and in reversed
order, gives the same result as one in-order pass. -/
theorem c6_witness :
    ([TimelineEvent.mk "assigned" "bob" 7, TimelineEvent.mk "assigned" "bob" 3].Perm
      [TimelineEvent.mk "assigned" "bob" 3, TimelineEvent.mk "assigned" "bob" 7]) ∧
    (process_events
        (process_events (PullRequest.mk "u" 1 "alice" "t" [Assignee.mk "bob" 0])
          [TimelineEvent.mk "assigned" "bob" 7, TimelineEvent.mk "assigned" "bob" 3])
        [TimelineEvent.mk "assigned" "bob" 7, TimelineEvent.mk "assigned" "bob" 3] =
      process_events (PullRequest.mk "u" 1 "alice" "t" [Assignee.mk "bob" 0])
        [TimelineEvent.mk "assigned" "bob" 7, TimelineEvent.mk "assigned" "bob" 3] ∧
    process_events (PullRequest.mk "u" 1 "alice" "t" [Assignee.mk "bob" 0])
        [TimelineEvent.mk "assigned" "bob" 7, TimelineEvent.mk "assigned" "bob" 3] =
      process_events (PullRequest.mk "u" 1 "alice" "t" [Assignee.mk "bob" 0])
        [TimelineEvent.mk "assigned" "bob" 3, TimelineEvent.mk "assigned" "bob" 7]) :=
  ⟨by decide,
   c6_reconciliation_idempotent_order_independent
     (PullRequest.mk "u" 1 "alice" "t" [Assignee.mk "bob" 0])
     [TimelineEvent.mk "assigned" "bob" 7, TimelineEvent.mk "assigned" "bob" 3]
     [TimelineEvent.mk "assigned" "bob" 3, TimelineEvent.mk "assigned" "bob" 7]
     (by decide)⟩

/-- C2, counterexample: `update_assignee_timestamp` (the per-PR timeline
fetch) carries no `check_token` guard.  Invoked with the credential still
uninitialized (`none`) on one pull request, it issues a timeline request
(its consumed-response trace is non-empty) and raises no configuration
error. -/
theorem c2_counterexample :
    (update_assignee_timestamp none (fun _ => [Fetch.ok []])
        [PullRequest.mk "u" 1 "alice" "t" []]).2 = [true] ∧
    (update_assignee_timestamp none (fun _ => [Fetch.ok []])
        [PullRequest.mk "u" 1 "alice" "t" []]).1 ≠
      Except.error ServiceError.configError := by
  constructor
  · rfl
  · intro h
    have h' : Except.ok [PullRequest.mk "u" 1 "alice" "t" []] =
        (Except.error ServiceError.configError :
          Except ServiceError (List PullRequest)) := h
    exact Except.noConfusion h'

/-- C2, amended: the entry points wrapped in the `check_token` decorator —
`get_prs_assigned_to_reviewers` is the one modelled here — fail fast with a
configuration error and issue no request when the credential is
uninitialized; the per-PR timeline fetch `update_assignee_timestamp`,
however, has no guard of its own (its only in-repo caller is guarded). -/
theorem c2_check_token_guard (timeline : Nat → List (Fetch (List TimelineEvent)))
    (now wait_hours : Int) (pr_pages : List (Fetch (List PullRequestRecord))) :
    get_prs_assigned_to_reviewers none timeline now wait_hours pr_pages =
      (Except.error ServiceError.configError, []) := rfl

/-! ### Claim C4 -/

/-- Lemma: lookup after a `defaultdict` append. -/
theorem dict_get_dict_append (m : ReviewerMap) (k : String) (v : PullRequest)
    (k' : String) :
    dict_get (dict_append m k v) k' =
      if k' = k then dict_get m k' ++ [v] else dict_get m k' := by
  induction m with
  | nil =>
    by_cases h : k' = k
    · subst h
      simp [dict_append, dict_get]
    · have h' : ¬k = k' := fun hh => h hh.symm
      simp [dict_append, dict_get, h, h']
  | cons p rest ih =>
    obtain ⟨k0, vs⟩ := p
    by_cases h0 : k0 = k
    · subst h0
      by_cases h : k' = k0
      · subst h
        simp [dict_append, dict_get]
      · have h' : ¬k0 = k' := fun hh => h hh.symm
        simp [dict_append, dict_get, h, h']
    · by_cases h : k' = k0
      · subst h
        have h0' : ¬k' = k := fun hh => h0 hh
        simp [dict_append, dict_get, h0, h0']
      · have h' : ¬k0 = k' := fun hh => h hh.symm
        simp [dict_append, dict_get, h0, h, h', ih]

/-- Lemma: membership in a bucket after a `defaultdict` append. -/
theorem mem_dict_get_dict_append (m : ReviewerMap) (k : String)
    (v p : PullRequest) (name : String) :
    p ∈ dict_get (dict_append m k v) name ↔
      p ∈ dict_get m name ∨ (name = k ∧ p = v) := by
  rw [dict_get_dict_append]
  by_cases h : name = k <;> simp [h]

/-- Lemma: membership in a bucket after folding the per-reviewer loop body
over an assignee list. -/
theorem mem_dict_get_foldl_consider (now wait_hours : Int) (pr p : PullRequest)
    (name : String) :
    ∀ (l : List Assignee) (m : ReviewerMap),
      p ∈ dict_get (l.foldl (consider_reviewer now wait_hours pr) m) name ↔
        p ∈ dict_get m name ∨
          ∃ r ∈ l, r.name = name ∧ r.name ≠ pr.author ∧
            wait_hours * usPerHour ≤ now - r.timestamp ∧ p = pr
  | [], m => by simp
  | r :: l, m => by
    rw [List.foldl_cons,
      mem_dict_get_foldl_consider now wait_hours pr p name l
        (consider_reviewer now wait_hours pr m r)]
    unfold consider_reviewer
    by_cases hc : r.name ≠ pr.author ∧ now - r.timestamp ≥ wait_hours * usPerHour
    · rw [if_pos hc]
      rw [mem_dict_get_dict_append]
      constructor
      · rintro ((hm | ⟨hn, hp⟩) | ⟨r', hr', hprops⟩)
        · exact Or.inl hm
        · exact Or.inr ⟨r, List.mem_cons_self r l, hn.symm, hc.1, hc.2, hp⟩
        · exact Or.inr ⟨r', List.mem_cons_of_mem r hr', hprops⟩
      · rintro (hm | ⟨r', hr', hn, hna, hw, hp⟩)
        · exact Or.inl (Or.inl hm)
        · rcases List.mem_cons.mp hr' with h | h
          · subst h
            exact Or.inl (Or.inr ⟨hn.symm, hp⟩)
          · exact Or.inr ⟨r', h, hn, hna, hw, hp⟩
    · rw [if_neg hc]
      constructor
      · rintro (hm | ⟨r', hr', hprops⟩)
        · exact Or.inl hm
        · exact Or.inr ⟨r', List.mem_cons_of_mem r hr', hprops⟩
      · rintro (hm | ⟨r', hr', hn, hna, hw, hp⟩)
        · exact Or.inl hm
        · rcases List.mem_cons.mp hr' with h | h
          · subst h
            exact absurd ⟨hna, hw⟩ hc
          · exact Or.inr ⟨r', h, hn, hna, hw, hp⟩

/-- C4: in the filter-and-group step, a pull request with a reviewer
assigned lands in reviewer `name`'s bucket exactly when some assignee of
that name differs from the author and waited at least
`wait_hours * 3600000000` microseconds (`timedelta(hours=wait_hours)`): the
comparison is an inclusive `≥`, so an elapsed wait exactly equal to the
threshold is included and any strictly smaller wait contributes nothing. -/
theorem c4_threshold_inclusive (now wait_hours : Int) (m : ReviewerMap)
    (pr p : PullRequest) (name : String)
    (hrev : pr.is_reviewer_assigned = true) :
    p ∈ dict_get (filter_group now wait_hours m pr) name ↔
      p ∈ dict_get m name ∨
        ∃ r ∈ pr.assignees, r.name = name ∧ r.name ≠ pr.author ∧
          wait_hours * usPerHour ≤ now - r.timestamp ∧ p = pr := by
  unfold filter_group
  rw [hrev]
  simp only [Bool.not_true, Bool.false_eq_true, if_false]
  exact mem_dict_get_foldl_consider now wait_hours pr p name pr.assignees m

/-- C4, witness: reviewer `"bob"` with an elapsed wait of exactly 48 hours
is included at threshold 48 (inclusive boundary), as the instantiated
characterization states. -/
theorem c4_witness :
    (PullRequest.mk "u" 42 "alice" "t"
        [Assignee.mk "bob" 0]).is_reviewer_assigned = true ∧
    (PullRequest.mk "u" 42 "alice" "t" [Assignee.mk "bob" 0] ∈
        dict_get
          (filter_group (48 * usPerHour) 48 []
            (PullRequest.mk "u" 42 "alice" "t" [Assignee.mk "bob" 0])) "bob" ↔
      PullRequest.mk "u" 42 "alice" "t" [Assignee.mk "bob" 0] ∈
          dict_get ([] : ReviewerMap) "bob" ∨
        ∃ r ∈ [Assignee.mk "bob" 0], r.name = "bob" ∧ r.name ≠ "alice" ∧
          48 * usPerHour ≤ 48 * usPerHour - r.timestamp ∧
          PullRequest.mk "u" 42 "alice" "t" [Assignee.mk "bob" 0] =
            PullRequest.mk "u" 42 "alice" "t" [Assignee.mk "bob" 0]) :=
  ⟨by decide,
   c4_threshold_inclusive (48 * usPerHour) 48 []
     (PullRequest.mk "u" 42 "alice" "t" [Assignee.mk "bob" 0])
     (PullRequest.mk "u" 42 "alice" "t" [Assignee.mk "bob" 0]) "bob" (by decide)⟩

/-! ### Claim C8 -/

/-- Lemma: a successful timeline pagination consumed only successful
responses. -/
theorem update_assignee_timestamp_pages_ok_trace :
    ∀ (pages : List (Fetch (List TimelineEvent))) (pr pr' : PullRequest),
      (update_assignee_timestamp_pages pr pages).1 = Except.ok pr' →
      ∀ b ∈ (update_assignee_timestamp_pages pr pages).2, b = true
  | [], _, _, _ => by simp [update_assignee_timestamp_pages]
  | .httpError s :: rest, pr, pr', h => by
    simp [update_assignee_timestamp_pages] at h
  | .ok [] :: rest, pr, pr', h => by
    simp [update_assignee_timestamp_pages]
  | .ok (e :: es) :: rest, pr, pr', h => by
    simp only [update_assignee_timestamp_pages] at h ⊢
    intro b hb
    rcases List.mem_cons.mp hb with hb | hb
    · exact hb
    · exact update_assignee_timestamp_pages_ok_trace rest _ pr' h b hb

/-- Lemma: a successful `update_assignee_timestamp` run consumed only
successful responses. -/
theorem update_assignee_timestamp_ok_trace (tok : Option String)
    (timeline : Nat → List (Fetch (List TimelineEvent))) :
    ∀ (prs out : List PullRequest),
      (update_assignee_timestamp tok timeline prs).1 = Except.ok out →
      ∀ b ∈ (update_assignee_timestamp tok timeline prs).2, b = true
  | [], _, _ => by simp [update_assignee_timestamp]
  | pr :: rest, out, h => by
    simp only [update_assignee_timestamp] at h ⊢
    rcases hr : (update_assignee_timestamp_pages pr (timeline pr.number)).1 with e | pr'
    · simp [hr] at h
    · simp only [hr] at h
      rcases hrr : (update_assignee_timestamp tok timeline rest).1 with e | rest'
      · simp [hrr] at h
      · intro b hb
        simp only [List.mem_append] at hb
        rcases hb with hb | hb
        · exact update_assignee_timestamp_pages_ok_trace _ pr pr' hr b hb
        · exact update_assignee_timestamp_ok_trace tok timeline rest rest' hrr b hb

/-- Lemma: a successful PR-listing pagination consumed only successful
responses. -/
theorem get_prs_pages_ok_trace (tok : Option String)
    (timeline : Nat → List (Fetch (List TimelineEvent)))
    (now wait_hours : Int) :
    ∀ (pages : List (Fetch (List PullRequestRecord))) (m m' : ReviewerMap),
      (get_prs_pages tok timeline now wait_hours m pages).1 = Except.ok m' →
      ∀ b ∈ (get_prs_pages tok timeline now wait_hours m pages).2, b = true
  | [], _, _, _ => by simp [get_prs_pages]
  | .httpError s :: rest, m, m', h => by
    simp [get_prs_pages] at h
  | .ok [] :: rest, m, m', h => by
    simp [get_prs_pages]
  | .ok (r :: rs) :: rest, m, m', h => by
    simp only [get_prs_pages] at h ⊢
    rcases hu : (update_assignee_timestamp tok timeline
        (List.map PullRequest.from_github_response (r :: rs))).1 with e | prs'
    · rw [hu] at h
      simp at h
    · rw [hu] at h
      simp only [] at h
      intro b hb
      rcases List.mem_cons.mp hb with hb | hb
      · exact hb
      · rcases List.mem_append.mp hb with hb | hb
        · exact update_assignee_timestamp_ok_trace tok timeline _ prs' hu b hb
        · exact get_prs_pages_ok_trace tok timeline now wait_hours rest _ m' h b hb

/-- C8: when `get_prs_assigned_to_reviewers` returns a mapping, every HTTP
response it consumed (both PR-listing pages and every per-PR timeline page)
was a success; contrapositively, a consumed non-success response forces the
run to return an error, and the `Except` result then carries no mapping at
all — the mapping accumulated so far is discarded with the exception. -/
theorem c8_http_error_aborts (tok : Option String)
    (timeline : Nat → List (Fetch (List TimelineEvent)))
    (now wait_hours : Int) (pr_pages : List (Fetch (List PullRequestRecord)))
    (m : ReviewerMap)
    (h : (get_prs_assigned_to_reviewers tok timeline now wait_hours pr_pages).1 =
      Except.ok m) :
    ∀ b ∈ (get_prs_assigned_to_reviewers tok timeline now wait_hours pr_pages).2,
      b = true := by
  cases tok with
  | none => simp [get_prs_assigned_to_reviewers] at h
  | some t =>
    exact get_prs_pages_ok_trace (some t) timeline now wait_hours pr_pages [] m h

/-- C8, witness: the end-to-end scenario (one open PR #42, author
`"alice"`, assignee `"bob"`, one assignment event, threshold 48 hours,
elapsed 49 hours) returns the mapping `bob ↦ [PR #42]` and its consumed
trace is all successes. -/
theorem c8_witness :
    (get_prs_assigned_to_reviewers (some "tok")
        (fun n => if n = 42
          then [Fetch.ok [TimelineEvent.mk "assigned" "bob" 0], Fetch.ok []]
          else [Fetch.ok []])
        (49 * usPerHour) 48
        [Fetch.ok [PullRequestRecord.mk "u" 42 "t" "alice" [AssigneeRecord.mk "bob"]],
         Fetch.ok []]).1 =
      Except.ok [("bob", [PullRequest.mk "u" 42 "alice" "t" [Assignee.mk "bob" 0]])] ∧
    ∀ b ∈ (get_prs_assigned_to_reviewers (some "tok")
        (fun n => if n = 42
          then [Fetch.ok [TimelineEvent.mk "assigned" "bob" 0], Fetch.ok []]
          else [Fetch.ok []])
        (49 * usPerHour) 48
        [Fetch.ok [PullRequestRecord.mk "u" 42 "t" "alice" [AssigneeRecord.mk "bob"]],
         Fetch.ok []]).2, b = true :=
  ⟨by decide,
   c8_http_error_aborts (some "tok")
     (fun n => if n = 42
       then [Fetch.ok [TimelineEvent.mk "assigned" "bob" 0], Fetch.ok []]
       else [Fetch.ok []])
     (49 * usPerHour) 48
     [Fetch.ok [PullRequestRecord.mk "u" 42 "t" "alice" [AssigneeRecord.mk "bob"]],
      Fetch.ok []]
     [("bob", [PullRequest.mk "u" 42 "alice" "t" [Assignee.mk "bob" 0]])]
     (by decide)⟩

/-! ### Claim C9 -/

/-- Modelled from the claim's words for comparison (refinement direction):
the waiting-time string for a nonnegative delta, given in microseconds —
join with `", "` the non-zero day and hour components of the delta, the
plural `"s"` appended exactly when the count exceeds 1, empty when the delta
is under one hour. -/
def readable_waiting_time_claim (delta : Nat) : String :=
  let days : Nat := delta / 86400000000
  let hours : Nat := delta % 86400000000 / 3600000000
  String.intercalate ", "
    ((if days ≠ 0 then
        [toString days ++ " day" ++ (if days > 1 then "s" else "")] else []) ++
     (if hours ≠ 0 then
        [toString hours ++ " hour" ++ (if hours > 1 then "s" else "")] else []))

/-- Lemma: the nested day computation of the source equals the direct day
count of the claim. -/
theorem days_component (n : Nat) : n / 1000000 / 86400 = n / 86400000000 := by
  rw [Nat.div_div_eq_div_mul]

/-- Lemma: the nested hour computation of the source equals the direct hour
count of the claim. -/
theorem hours_component (n : Nat) :
    n / 1000000 % 86400 / 3600 = n % 86400000000 / 3600000000 := by
  rw [← Nat.mod_mul_right_div_self, Nat.div_div_eq_div_mul]

/-- C9, counterexample: with the assignment timestamp half an hour in the
future of `now`, the delta is under one hour, yet the result is
`"-1 day, 23 hours"`, not the empty string — Python `timedelta`
normalization gives `days = -1`, `seconds = 84600` for a `-30` minute
delta. -/
theorem c9_counterexample :
    (Assignee.mk "bob" 1800000000).get_readable_waiting_time 0 =
      "-1 day, 23 hours" ∧
    (0 : Int) - 1800000000 < usPerHour ∧
    "-1 day, 23 hours" ≠ "" := by
  refine ⟨rfl, by decide, by decide⟩

/-- C9, amended: whenever `now` is not earlier than the assignment timestamp
(nonnegative delta), `get_readable_waiting_time` returns exactly the string
the claim describes: the non-zero day and hour components of the delta
joined with `", "`, pluralized by `"s"` exactly when the count exceeds 1,
and the empty string when the delta is under one hour.  For a negative
delta (timestamp in the future of `now`) the claim's description fails —
see the counterexample. -/
theorem c9_readable_waiting_time_nonneg (a : Assignee) (now : Int)
    (h : a.timestamp ≤ now) :
    a.get_readable_waiting_time now =
      readable_waiting_time_claim (now - a.timestamp).toNat := by
  obtain ⟨n, hn⟩ := Int.eq_ofNat_of_zero_le (sub_nonneg.mpr h)
  have e6 : (1000000 : Int) = ((1000000 : Nat) : Int) := rfl
  have e86400 : (86400 : Int) = ((86400 : Nat) : Int) := rfl
  have e3600 : (3600 : Int) = ((3600 : Nat) : Int) := rfl
  have h1 : (now - a.timestamp).fdiv 1000000 = ((n / 1000000 : Nat) : Int) := by
    rw [hn, e6]
    exact (Int.ofNat_fdiv n 1000000).symm
  have h2 : ((n / 1000000 : Nat) : Int).fdiv 86400 =
      ((n / 86400000000 : Nat) : Int) := by
    rw [e86400, ← Int.ofNat_fdiv, days_component]
  have h3 : ((n / 1000000 : Nat) : Int).fmod 86400 =
      ((n / 1000000 % 86400 : Nat) : Int) := by
    rw [e86400, ← Int.ofNat_fmod]
  have h4 : ((n / 1000000 % 86400 : Nat) : Int).fdiv 3600 =
      ((n % 86400000000 / 3600000000 : Nat) : Int) := by
    rw [e3600, ← Int.ofNat_fdiv, hours_component]
  have htoNat : (now - a.timestamp).toNat = n := by
    rw [hn]
    exact Int.toNat_natCast n
  have hts : ∀ m : Nat, toString ((m : Nat) : Int) = toString m := fun _ => rfl
  simp only [Assignee.get_readable_waiting_time, readable_waiting_time_claim,
    h1, h2, h3, h4, htoNat, hts, ne_eq, Nat.cast_eq_zero, gt_iff_lt,
    Nat.one_lt_cast]

/-- C9, witness: with a delta of 2 days, 3 hours and a few microseconds,
both the source function and the claim's description produce
`"2 days, 3 hours"`. -/
theorem c9_witness :
    (Assignee.mk "bob" 0).timestamp ≤ 183600000005 ∧
    (Assignee.mk "bob" 0).get_readable_waiting_time 183600000005 =
      readable_waiting_time_claim ((183600000005 : Int) - 0).toNat :=
  ⟨by decide, c9_readable_waiting_time_nonneg (Assignee.mk "bob" 0) 183600000005
    (by decide)⟩

end GithubNotifier
